import Mathlib

/-!
Verification of the `pw_user` module (`src/salt/modules/pw_user.py`): a thin
adapter managing user accounts on FreeBSD by building command lines for the
`pw` utility and by reading the OS password and group databases.

The embedding models:
  * the password database (`pwd`) and group database (`grp`) as lists of
    records inside a `SysDb` value;
  * the ambient execution collaborator (`__salt__['cmd.run']` /
    `__salt__['cmd.run_all']`) as a `Runner`: executing a command transforms
    the database (`runDb`) and yields an exit code (`retcode`);
  * Python exceptions (the `KeyError` of `pwd.getpwnam`) as `Except`;
  * Python truthiness of optional arguments (`if uid:` etc.) explicitly.

Mutating operations return, besides the translated result, the database after
execution and the list of command strings that were handed to the runner, so
that frame properties ("no command executed") are statable.
-/

namespace PwUser

/-- One entry of the OS password database (`pwd` module record). -/
structure Passwd where
  pw_name : String
  pw_passwd : String
  pw_uid : Int
  pw_gid : Int
  pw_dir : String
  pw_shell : String
deriving DecidableEq, Repr

/-- One entry of the OS group database (`grp` module record). -/
structure GroupEntry where
  gr_name : String
  gr_mem : List String
deriving DecidableEq, Repr

/-- The OS user/group databases, the only state the module reads. -/
structure SysDb where
  passwd : List Passwd
  groups : List GroupEntry
deriving DecidableEq, Repr

/-- The execution collaborator: running a command string mutates the system
databases (`runDb`) and produces a process exit code (`retcode`).
`cmd.run` uses only the mutation; `cmd.run_all` also exposes the exit code. -/
structure Runner where
  runDb : String → SysDb → SysDb
  retcode : String → SysDb → Int

/-- A Python argument that may be a comma separated string or a list
(the duck-typed `groups` parameter). -/
inductive StrOrList where
  | str (s : String)
  | list (l : List String)
deriving DecidableEq, Repr

/-- Split a character list at every comma, keeping empty chunks:
the behaviour of Python `s.split(',')`. -/
def splitCommaAux : List Char → List Char → List (List Char)
  | [], acc => [acc.reverse]
  | c :: cs, acc =>
    if c = ',' then acc.reverse :: splitCommaAux cs []
    else splitCommaAux cs (c :: acc)

/-- Python `s.split(',')`. -/
def splitComma (s : String) : List String :=
  (splitCommaAux s.data []).map fun l => ⟨l⟩

/-- `groups.split(',')` when `groups` is a string, identity on a list:
the normalisation at the top of `add` and `chgroups`. -/
def StrOrList.norm : StrOrList → List String
  | .str s => splitComma s
  | .list l => l

/-- The `home` parameter of `add`: Python allows a boolean or a path string. -/
inductive HomeParam where
  | bool (b : Bool)
  | path (p : String)
deriving DecidableEq, Repr

/-- Index one past the last `'/'` of the list, `0` when there is none
(Python `p.rfind('/') + 1`). -/
def rfindSlash : List Char → Nat
  | [] => 0
  | c :: cs =>
    let r := rfindSlash cs
    if r > 0 then r + 1 else if c = '/' then 1 else 0

/-- Remove trailing `'/'` characters (Python `head.rstrip('/')`). -/
def rstripSlash (cs : List Char) : List Char :=
  (cs.reverse.dropWhile fun c => c = '/').reverse

/-- Model of Python `os.path.dirname` for POSIX paths, as used by `add`
when `home` is a path. -/
def dirname (p : String) : String :=
  let head := p.data.take (rfindSlash p.data)
  if head ≠ [] ∧ ¬ head.all (fun c => c = '/') then ⟨rstripSlash head⟩
  else ⟨head⟩

/-- The command string built by `add` (the value of `cmd` at the call of
`cmd.run_all`).  Each `if` mirrors a Python truthiness test: `if shell:`,
`if uid:`, `if gid:`, `if groups:`, `if home:` / `if home is True:`.
`system` and the extra keyword arguments are accepted and ignored,
exactly as in the source. -/
def addCmd (name : String) (uid gid : Option Int) (groups : Option StrOrList)
    (home : HomeParam) (shell : Option String) (system : Bool)
    (kwargs : List (String × String)) : String :=
  let groups : Option (List String) := groups.map StrOrList.norm
  let cmd := "pw useradd "
  let cmd := match shell with
    | some s => if s != "" then cmd ++ ("-s " ++ s ++ " ") else cmd
    | none => cmd
  let cmd := match uid with
    | some u => if u != 0 then cmd ++ ("-u " ++ toString u ++ " ") else cmd
    | none => cmd
  let cmd := match gid with
    | some g => if g != 0 then cmd ++ ("-g " ++ toString g ++ " ") else cmd
    | none => cmd
  let cmd := match groups with
    | some gl => if !gl.isEmpty then cmd ++ ("-G " ++ String.intercalate "," gl ++ " ") else cmd
    | none => cmd
  let cmd := match home with
    | .bool b => if b then cmd ++ "-m " else cmd
    | .path p => if p != "" then cmd ++ ("-m -b " ++ dirname p ++ " ") else cmd
  cmd ++ ("-n " ++ name)

/-- `add`: build the command, run it through `cmd.run_all`, succeed iff the
exit code is zero (`return not ret['retcode']`). -/
def add (r : Runner) (db : SysDb) (name : String) (uid gid : Option Int)
    (groups : Option StrOrList) (home : HomeParam) (shell : Option String)
    (system : Bool) (kwargs : List (String × String)) : Bool × SysDb :=
  let cmd := addCmd name uid gid groups home shell system kwargs
  ((r.retcode cmd db == 0), r.runDb cmd db)

/-- The command string built by `delete`; `force` maps to nothing. -/
def deleteCmd (name : String) (remove : Bool) : String :=
  "pw userdel " ++ (if remove then "-r " else "") ++ name

/-- `delete`: build `pw userdel [-r] name`, run it, succeed iff exit code 0.
The `force` parameter is accepted and ignored, exactly as in the source. -/
def delete (r : Runner) (db : SysDb) (name : String) (remove force : Bool) :
    Bool × SysDb :=
  let cmd := deleteCmd name remove
  ((r.retcode cmd db == 0), r.runDb cmd db)

/-- Strict lexicographic comparison of character lists by code point:
the order Python uses to compare strings. -/
def listLtB : List Char → List Char → Bool
  | [], [] => false
  | [], _ :: _ => true
  | _ :: _, [] => false
  | a :: as, b :: bs => if a < b then true else if b < a then false else listLtB as bs

/-- Python `a < b` on strings. -/
def strLtB (a b : String) : Bool :=
  listLtB a.data b.data

/-- Python `a <= b` on strings: strictly below or equal. -/
def strLeB (a b : String) : Bool :=
  strLtB a b || a == b

/-- `grp.getgrall()` scan of `list_groups`: the set of names of groups whose
member list contains `name`, returned as Python `sorted(list(ugrp))`.
`dedup` plays the role of the set, `insertionSort` under the Python string
order of `sorted`. -/
def list_groups (db : SysDb) (name : String) : List String :=
  List.insertionSort (fun a b => strLeB a b = true)
    (((db.groups.filter fun g => g.gr_mem.contains name).map GroupEntry.gr_name).dedup)

/-- The user record assembled by `info`. -/
structure UserInfo where
  name : String
  passwd : String
  uid : Int
  gid : Int
  home : String
  shell : String
  groups : List String
deriving DecidableEq, Repr

/-- `pwd.getpwnam(name)`: first matching entry, `KeyError` when absent. -/
def getpwnam (db : SysDb) (name : String) : Except String Passwd :=
  match db.passwd.find? (fun e => e.pw_name == name) with
  | some e => Except.ok e
  | none => Except.error ("KeyError: getpwnam(): name not found: " ++ name)

/-- `info`: look the user up (propagating the lookup error) and assemble the
record, deriving `groups` via `list_groups`. -/
def info (db : SysDb) (name : String) : Except String UserInfo :=
  match getpwnam db name with
  | Except.error e => Except.error e
  | Except.ok data =>
    Except.ok
      { name := data.pw_name
        passwd := data.pw_passwd
        uid := data.pw_uid
        gid := data.pw_gid
        home := data.pw_dir
        shell := data.pw_shell
        groups := list_groups db name }

/-- The loop of `getent`: `info` for every password entry, in database
order, propagating any lookup error exactly as the uncaught exception
would propagate in the source. -/
def getentGo (db : SysDb) : List Passwd → Except String (List UserInfo)
  | [] => Except.ok []
  | e :: rest =>
    match info db e.pw_name with
    | Except.error msg => Except.error msg
    | Except.ok i =>
      match getentGo db rest with
      | Except.error msg => Except.error msg
      | Except.ok l => Except.ok (i :: l)

/-- `getent`: one `UserInfo` per entry of `pwd.getpwall()`. -/
def getent (db : SysDb) : Except String (List UserInfo) :=
  getentGo db db.passwd

/-- Command built by `chuid`: `pw usermod -u {uid} {name}`. -/
def chuidCmd (uid : Int) (name : String) : String :=
  "pw usermod -u " ++ toString uid ++ " " ++ name

/-- `chuid`: snapshot, short circuit on equality, run the modification via
`cmd.run` (exit code unavailable and unused), re-snapshot and verify.
Besides the boolean the embedding returns the final database and the list of
executed commands. -/
def chuid (r : Runner) (db : SysDb) (name : String) (uid : Int) :
    Except String (Bool × SysDb × List String) :=
  match info db name with
  | Except.error e => Except.error e
  | Except.ok pre =>
    if uid == pre.uid then Except.ok (true, db, [])
    else
      let cmd := chuidCmd uid name
      let db2 := r.runDb cmd db
      match info db2 name with
      | Except.error e => Except.error e
      | Except.ok post =>
        if post.uid != pre.uid then Except.ok ((post.uid == uid), db2, [cmd])
        else Except.ok (false, db2, [cmd])

/-- Command built by `chgid`: `pw usermod -g {gid} {name}`. -/
def chgidCmd (gid : Int) (name : String) : String :=
  "pw usermod -g " ++ toString gid ++ " " ++ name

/-- `chgid`, same compare-mutate-verify shape as `chuid`. -/
def chgid (r : Runner) (db : SysDb) (name : String) (gid : Int) :
    Except String (Bool × SysDb × List String) :=
  match info db name with
  | Except.error e => Except.error e
  | Except.ok pre =>
    if gid == pre.gid then Except.ok (true, db, [])
    else
      let cmd := chgidCmd gid name
      let db2 := r.runDb cmd db
      match info db2 name with
      | Except.error e => Except.error e
      | Except.ok post =>
        if post.gid != pre.gid then Except.ok ((post.gid == gid), db2, [cmd])
        else Except.ok (false, db2, [cmd])

/-- Command built by `chshell`: `pw usermod -s {shell} {name}`. -/
def chshellCmd (shell name : String) : String :=
  "pw usermod -s " ++ shell ++ " " ++ name

/-- `chshell`, same compare-mutate-verify shape as `chuid`. -/
def chshell (r : Runner) (db : SysDb) (name shell : String) :
    Except String (Bool × SysDb × List String) :=
  match info db name with
  | Except.error e => Except.error e
  | Except.ok pre =>
    if shell == pre.shell then Except.ok (true, db, [])
    else
      let cmd := chshellCmd shell name
      let db2 := r.runDb cmd db
      match info db2 name with
      | Except.error e => Except.error e
      | Except.ok post =>
        if post.shell != pre.shell then Except.ok ((post.shell == shell), db2, [cmd])
        else Except.ok (false, db2, [cmd])

/-- Command built by `chhome`: `pw usermod -d {home} ` then `' -m '` when
`persist`, then the name (the doubled space of the source is kept). -/
def chhomeCmd (home : String) (persist : Bool) (name : String) : String :=
  "pw usermod -d " ++ home ++ " " ++ (if persist then " -m " else "") ++ name

/-- `chhome`, same compare-mutate-verify shape as `chuid`. -/
def chhome (r : Runner) (db : SysDb) (name home : String) (persist : Bool) :
    Except String (Bool × SysDb × List String) :=
  match info db name with
  | Except.error e => Except.error e
  | Except.ok pre =>
    if home == pre.home then Except.ok (true, db, [])
    else
      let cmd := chhomeCmd home persist name
      let db2 := r.runDb cmd db
      match info db2 name with
      | Except.error e => Except.error e
      | Except.ok post =>
        if post.home != pre.home then Except.ok ((post.home == home), db2, [cmd])
        else Except.ok (false, db2, [cmd])

/-- Extensional equality of Python sets represented by element lists:
`set(a) == set(b)`. -/
def setEqB (a b : List String) : Bool :=
  (a.all fun x => b.contains x) && (b.all fun x => a.contains x)

/-- `len(set(a) - set(b)) == 0`: every element of `a` occurs in `b`. -/
def subsetB (a b : List String) : Bool :=
  a.all fun x => b.contains x

/-- Command built by `chgroups`:
`pw usermod -G {groups} -n {name} ` plus `-a` when `append`. -/
def chgroupsCmd (gs : List String) (name : String) (append : Bool) : String :=
  "pw usermod -G " ++ String.intercalate "," gs ++ " -n " ++ name ++ " " ++
    (if append then "-a" else "")

/-- `chgroups`: normalise the requested groups, short circuit on set
equality with the current membership, otherwise run the replacement command
and succeed iff no pre-state group disappeared
(`len(ugrps - agrps) == 0`). -/
def chgroups (r : Runner) (db : SysDb) (name : String) (groups : StrOrList)
    (append : Bool) : Bool × SysDb × List String :=
  let gs := groups.norm
  let ugrps := list_groups db name
  if setEqB ugrps gs then (true, db, [])
  else
    let cmd := chgroupsCmd gs name append
    let db2 := r.runDb cmd db
    let agrps := list_groups db2 name
    (subsetB ugrps agrps, db2, [cmd])

/-- `true` exactly on `Except.ok`: "no exception was raised". -/
def isOkE {ε α : Type} : Except ε α → Bool
  | Except.ok _ => true
  | Except.error _ => false

/-- `n` is an initial segment of `h` (character lists). -/
def preB : List Char → List Char → Bool
  | [], _ => true
  | _ :: _, [] => false
  | a :: as, b :: bs => a == b && preB as bs

/-- `n` occurs contiguously somewhere in `h`: Python `n in h` on strings,
used to state which flags appear in a built command line. -/
def substrB : List Char → List Char → Bool
  | n, [] => preB n []
  | n, c :: hs => preB n (c :: hs) || substrB n hs

end PwUser

namespace PwUser

/-- C3: `add("alice", uid=1000, gid=1000, groups="wheel,ops", home=true,
shell="/bin/sh")` builds exactly the command
`pw useradd -s /bin/sh -u 1000 -g 1000 -G wheel,ops -m -n alice`, with the
flags in that order, and returns true iff the exit code of that command is
zero. -/
theorem add_alice_scenario : ∀ (r : Runner) (db : SysDb),
    addCmd "alice" (some 1000) (some 1000) (some (StrOrList.str "wheel,ops"))
      (HomeParam.bool true) (some "/bin/sh") false [] =
      "pw useradd -s /bin/sh -u 1000 -g 1000 -G wheel,ops -m -n alice" ∧
    ((add r db "alice" (some 1000) (some 1000) (some (StrOrList.str "wheel,ops"))
        (HomeParam.bool true) (some "/bin/sh") false []).1 = true ↔
      r.retcode "pw useradd -s /bin/sh -u 1000 -g 1000 -G wheel,ops -m -n alice" db = 0) := by
  intro r db
  refine ⟨rfl, ?_⟩
  show (r.retcode "pw useradd -s /bin/sh -u 1000 -g 1000 -G wheel,ops -m -n alice" db == 0)
      = true ↔ _
  exact beq_iff_eq

/-- C6: `delete` builds `pw userdel -r <name>` when `remove` is true and
`pw userdel <name>` when it is false, and both the command and the result
are identical for `force = true` and `force = false`. -/
theorem delete_force_no_flag : ∀ (r : Runner) (db : SysDb) (name : String) (rm f1 f2 : Bool),
    deleteCmd name true = "pw userdel -r " ++ name ∧
    deleteCmd name false = "pw userdel " ++ name ∧
    delete r db name rm f1 = delete r db name rm f2 :=
  fun _ _ _ _ _ _ => ⟨rfl, rfl, rfl⟩

/-- C7: `chgroups` behaves identically on the comma separated string
`"wheel,root"` and on the list `["wheel", "root"]`: the string is split on
commas before any command is constructed, so the whole result (boolean,
final database and executed command strings) coincides. -/
theorem chgroups_string_list_agree : ∀ (r : Runner) (db : SysDb) (name : String) (append : Bool),
    chgroups r db name (StrOrList.str "wheel,root") append =
      chgroups r db name (StrOrList.list ["wheel", "root"]) append :=
  fun _ _ _ _ => rfl

/-- C10: the command built by `add` and its full result are independent of
the `system` parameter and of the extra keyword arguments. -/
theorem add_ignores_system_kwargs : ∀ (r : Runner) (db : SysDb) (name : String)
    (uid gid : Option Int) (groups : Option StrOrList) (home : HomeParam)
    (shell : Option String) (sys1 sys2 : Bool) (kw1 kw2 : List (String × String)),
    addCmd name uid gid groups home shell sys1 kw1 =
      addCmd name uid gid groups home shell sys2 kw2 ∧
    add r db name uid gid groups home shell sys1 kw1 =
      add r db name uid gid groups home shell sys2 kw2 :=
  fun _ _ _ _ _ _ _ _ _ _ _ _ => ⟨rfl, rfl⟩

/-- C2 counterexample: with current groups `{"a"}`, requested groups `["b"]`
(the two sets differ, so a command is executed) and a runner that leaves the
database unchanged, `chgroups` returns `true` although the post-execution
group `"a"` is not contained in the originally requested set — the code
checks that no pre-state group disappeared, not what the claim states. -/
theorem chgroups_requested_subset_cex :
    setEqB (list_groups ⟨[], [⟨"a", ["alice"]⟩]⟩ "alice")
        (StrOrList.norm (StrOrList.list ["b"])) = false ∧
    (chgroups ⟨fun _ db => db, fun _ _ => 0⟩ ⟨[], [⟨"a", ["alice"]⟩]⟩ "alice"
        (StrOrList.list ["b"]) false).1 = true ∧
    ¬ (∀ g ∈ list_groups ((chgroups ⟨fun _ db => db, fun _ _ => 0⟩
          ⟨[], [⟨"a", ["alice"]⟩]⟩ "alice" (StrOrList.list ["b"]) false).2.1) "alice",
        g ∈ StrOrList.norm (StrOrList.list ["b"])) :=
  ⟨by decide, by decide, by decide⟩

/-- C5 counterexample: `uid = 0` is supplied, yet the built command is
`pw useradd -m -n alice`, which contains no `-u` flag: Python `if uid:`
treats a zero uid like an absent one. -/
theorem add_uid_zero_cex :
    addCmd "alice" (some 0) none none (HomeParam.bool true) none false [] =
      "pw useradd -m -n alice" ∧
    substrB "-u".data
      (addCmd "alice" (some 0) none none (HomeParam.bool true) none false []).data = false :=
  ⟨rfl, by decide⟩

end PwUser

namespace PwUser

theorem preB_self_append (n t : List Char) : preB n (n ++ t) = true := by
  induction n with
  | nil => rfl
  | cons a as ih => simp [preB, ih]

theorem preB_append_right : ∀ (n a b : List Char), preB n a = true → preB n (a ++ b) = true
  | [], _, _, _ => rfl
  | x :: xs, [], b, ha => by simp [preB] at ha
  | x :: xs, y :: ys, b, ha => by
    simp only [preB, Bool.and_eq_true, beq_iff_eq] at ha
    simp only [List.cons_append, preB, Bool.and_eq_true, beq_iff_eq]
    exact ⟨ha.1, preB_append_right xs ys b ha.2⟩

theorem substrB_of_preB {n h : List Char} (hp : preB n h = true) : substrB n h = true := by
  cases h with
  | nil => simpa [substrB] using hp
  | cons c hs => simp [substrB, hp]

theorem substrB_append_right {n b : List Char} (a : List Char) (hb : substrB n b = true) :
    substrB n (a ++ b) = true := by
  induction a with
  | nil => simpa
  | cons c cs ih => simp [substrB, ih]

theorem substrB_append_left {n a : List Char} (b : List Char) (ha : substrB n a = true) :
    substrB n (a ++ b) = true := by
  induction a with
  | nil =>
    cases n with
    | nil => exact substrB_of_preB rfl
    | cons x xs => simp [substrB, preB] at ha
  | cons c cs ih =>
    simp only [substrB, Bool.or_eq_true] at ha
    rcases ha with hp | hs
    · exact substrB_of_preB (preB_append_right n (c :: cs) b hp)
    · simp only [List.cons_append, substrB, Bool.or_eq_true]
      exact Or.inr (ih hs)

/-- C5 amended: in the command built by `add`, each flag is emitted exactly
when the corresponding parameter is supplied and truthy in the Python sense
(`if shell:`, `if uid:`, `if gid:`, `if groups:`, `if home:`), so a supplied
falsy value (uid 0, gid 0, empty shell, empty group list, home false or "")
omits the flag.  First conjunct: for all parameter values simultaneously the
command decomposes into the fixed-order flag segments, each empty exactly
when its parameter is falsy.  Remaining conjuncts: for every value of each
individual parameter, the flag text occurs in the command iff the parameter
is truthy (in particular `-u` appears iff the supplied uid is nonzero). -/
theorem add_flag_truthiness :
    (∀ (name : String) (uid gid : Option Int) (groups : Option StrOrList)
        (home : HomeParam) (shell : Option String) (sys : Bool)
        (kw : List (String × String)),
      addCmd name uid gid groups home shell sys kw =
        "pw useradd "
          ++ (match shell with
              | some s => if s != "" then "-s " ++ s ++ " " else ""
              | none => "")
          ++ (match uid with
              | some u => if u != 0 then "-u " ++ toString u ++ " " else ""
              | none => "")
          ++ (match gid with
              | some g => if g != 0 then "-g " ++ toString g ++ " " else ""
              | none => "")
          ++ (match groups with
              | some gr => if !(StrOrList.norm gr).isEmpty then
                  "-G " ++ String.intercalate "," (StrOrList.norm gr) ++ " " else ""
              | none => "")
          ++ (match home with
              | HomeParam.bool b => if b then "-m " else ""
              | HomeParam.path p => if p != "" then "-m -b " ++ dirname p ++ " " else "")
          ++ ("-n " ++ name)) ∧
    (∀ s : String, substrB "-s ".data
        (addCmd "alice" none none none (HomeParam.bool true) (some s) false []).data = true
      ↔ s ≠ "") ∧
    (∀ u : Int, substrB "-u ".data
        (addCmd "alice" (some u) none none (HomeParam.bool true) none false []).data = true
      ↔ u ≠ 0) ∧
    (∀ g : Int, substrB "-g ".data
        (addCmd "alice" none (some g) none (HomeParam.bool true) none false []).data = true
      ↔ g ≠ 0) ∧
    (∀ gl : List String, substrB "-G ".data
        (addCmd "alice" none none (some (StrOrList.list gl)) (HomeParam.bool true)
          none false []).data = true
      ↔ gl ≠ []) ∧
    (∀ b : Bool, substrB "-m ".data
        (addCmd "alice" none none none (HomeParam.bool b) none false []).data = true
      ↔ b = true) ∧
    (∀ p : String, substrB "-m -b ".data
        (addCmd "alice" none none none (HomeParam.path p) none false []).data = true
      ↔ p ≠ "") := by
  have step : ∀ (s x : String) (c : Prop) (inst : Decidable c),
      (@ite _ c inst (s ++ x) s) = s ++ (@ite _ c inst x "") := by
    intro s x c inst
    cases inst with
    | isTrue h => simp [h]
    | isFalse h => simp [h, String.append_empty]
  refine ⟨?_, ?_, ?_, ?_, ?_, ?_, ?_⟩
  · intro name uid gid groups home shell sys kw
    rcases shell with _ | s <;> rcases uid with _ | u <;> rcases gid with _ | g <;>
      rcases groups with _ | gr <;> rcases home with b | p <;>
        simp only [addCmd, Option.map_none', Option.map_some', step, String.append_empty]
  · intro s
    constructor
    · intro h heq
      subst heq
      exact absurd h (by decide)
    · intro hne
      have hb : (s != "") = true := by simpa using hne
      have hcmd : addCmd "alice" none none none (HomeParam.bool true) (some s) false [] =
          "pw useradd " ++ ("-s " ++ s ++ " ") ++ "-m " ++ ("-n " ++ "alice") := by
        simp only [addCmd, Option.map_none', hb, if_true]
      rw [hcmd]
      simp only [String.data_append, List.append_assoc]
      apply substrB_append_right
      apply substrB_of_preB
      exact preB_self_append _ _
  · intro u
    constructor
    · intro h heq
      subst heq
      exact absurd h (by decide)
    · intro hne
      have hb : (u != 0) = true := by simpa using hne
      have hcmd : addCmd "alice" (some u) none none (HomeParam.bool true) none false [] =
          "pw useradd " ++ ("-u " ++ toString u ++ " ") ++ "-m " ++ ("-n " ++ "alice") := by
        simp only [addCmd, Option.map_none', Option.map_some', hb, if_true]
      rw [hcmd]
      simp only [String.data_append, List.append_assoc]
      apply substrB_append_right
      apply substrB_of_preB
      exact preB_self_append _ _
  · intro g
    constructor
    · intro h heq
      subst heq
      exact absurd h (by decide)
    · intro hne
      have hb : (g != 0) = true := by simpa using hne
      have hcmd : addCmd "alice" none (some g) none (HomeParam.bool true) none false [] =
          "pw useradd " ++ ("-g " ++ toString g ++ " ") ++ "-m " ++ ("-n " ++ "alice") := by
        simp only [addCmd, Option.map_none', Option.map_some', hb, if_true]
      rw [hcmd]
      simp only [String.data_append, List.append_assoc]
      apply substrB_append_right
      apply substrB_of_preB
      exact preB_self_append _ _
  · intro gl
    constructor
    · intro h heq
      subst heq
      exact absurd h (by decide)
    · intro hne
      have hb : (!gl.isEmpty) = true := by
        cases gl with
        | nil => exact absurd rfl hne
        | cons hd tl => rfl
      have hcmd : addCmd "alice" none none (some (StrOrList.list gl)) (HomeParam.bool true)
            none false [] =
          "pw useradd " ++ ("-G " ++ String.intercalate "," gl ++ " ") ++ "-m "
            ++ ("-n " ++ "alice") := by
        simp only [addCmd, Option.map_none', Option.map_some', StrOrList.norm, hb, if_true]
      rw [hcmd]
      simp only [String.data_append, List.append_assoc]
      apply substrB_append_right
      apply substrB_of_preB
      exact preB_self_append _ _
  · intro b
    cases b <;> decide
  · intro p
    constructor
    · intro h heq
      subst heq
      exact absurd h (by decide)
    · intro hne
      have hb : (p != "") = true := by simpa using hne
      have hcmd : addCmd "alice" none none none (HomeParam.path p) none false [] =
          "pw useradd " ++ ("-m -b " ++ dirname p ++ " ") ++ ("-n " ++ "alice") := by
        simp only [addCmd, Option.map_none', hb, if_true]
      rw [hcmd]
      simp only [String.data_append, List.append_assoc]
      apply substrB_append_right
      apply substrB_of_preB
      exact preB_self_append _ _

end PwUser

namespace PwUser

/-- C4: when the requested value already equals the current one, each of
`chuid`, `chgid`, `chshell`, `chhome` and (under set equality of group
lists) `chgroups` returns true immediately: the returned database is the
input database and the list of executed commands is empty, so the execution
collaborator is never invoked. -/
theorem idempotent_short_circuit : ∀ (r : Runner) (db : SysDb) (name : String)
    (uid gid : Int) (sh hm : String) (persist : Bool) (gs : StrOrList) (append : Bool)
    (pre : UserInfo), info db name = Except.ok pre →
    (uid = pre.uid → chuid r db name uid = Except.ok (true, db, [])) ∧
    (gid = pre.gid → chgid r db name gid = Except.ok (true, db, [])) ∧
    (sh = pre.shell → chshell r db name sh = Except.ok (true, db, [])) ∧
    (hm = pre.home → chhome r db name hm persist = Except.ok (true, db, [])) ∧
    (setEqB (list_groups db name) (StrOrList.norm gs) = true →
      chgroups r db name gs append = (true, db, [])) := by
  intro r db name uid gid sh hm persist gs append pre hinfo
  refine ⟨?_, ?_, ?_, ?_, ?_⟩ <;> intro heq
  · subst heq; simp [chuid, hinfo]
  · subst heq; simp [chgid, hinfo]
  · subst heq; simp [chshell, hinfo]
  · subst heq; simp [chhome, hinfo]
  · simp [chgroups, heq]

/-- Witness for the idempotent short circuit at a concrete database. -/
theorem idempotent_short_circuit_witness :
    chuid ⟨fun _ db => db, fun _ _ => 0⟩
        ⟨[⟨"alice", "x", 1, 1, "/home/alice", "/bin/sh"⟩], []⟩ "alice" 1 =
      Except.ok (true, ⟨[⟨"alice", "x", 1, 1, "/home/alice", "/bin/sh"⟩], []⟩, []) ∧
    chgroups ⟨fun _ db => db, fun _ _ => 0⟩
        ⟨[⟨"alice", "x", 1, 1, "/home/alice", "/bin/sh"⟩], []⟩ "alice"
        (StrOrList.list []) false =
      (true, ⟨[⟨"alice", "x", 1, 1, "/home/alice", "/bin/sh"⟩], []⟩, []) := by
  have h := idempotent_short_circuit ⟨fun _ db => db, fun _ _ => 0⟩
    ⟨[⟨"alice", "x", 1, 1, "/home/alice", "/bin/sh"⟩], []⟩ "alice" 1 1 "/bin/sh"
    "/home/alice" false (StrOrList.list []) false
    ⟨"alice", "x", 1, 1, "/home/alice", "/bin/sh", []⟩ rfl
  exact ⟨h.1 rfl, h.2.2.2.2 (by decide)⟩

/-- C1: for each attribute change operation, when the requested value differs
from the current one the operation executes exactly the one modification
command, re-reads the user record, and returns false when the attribute is
unchanged from the pre-state and otherwise true exactly when the attribute
now equals the requested value; the whole result depends only on the
runner's database action, never on any exit code. -/
theorem chattr_verify_semantics : ∀ (r r2 : Runner) (db : SysDb) (name : String),
    (∀ (uid : Int) (pre post : UserInfo), info db name = Except.ok pre → uid ≠ pre.uid →
      info (r.runDb (chuidCmd uid name) db) name = Except.ok post →
      chuid r db name uid = Except.ok
        ((if post.uid != pre.uid then post.uid == uid else false),
          r.runDb (chuidCmd uid name) db, [chuidCmd uid name])) ∧
    (∀ (gid : Int) (pre post : UserInfo), info db name = Except.ok pre → gid ≠ pre.gid →
      info (r.runDb (chgidCmd gid name) db) name = Except.ok post →
      chgid r db name gid = Except.ok
        ((if post.gid != pre.gid then post.gid == gid else false),
          r.runDb (chgidCmd gid name) db, [chgidCmd gid name])) ∧
    (∀ (sh : String) (pre post : UserInfo), info db name = Except.ok pre → sh ≠ pre.shell →
      info (r.runDb (chshellCmd sh name) db) name = Except.ok post →
      chshell r db name sh = Except.ok
        ((if post.shell != pre.shell then post.shell == sh else false),
          r.runDb (chshellCmd sh name) db, [chshellCmd sh name])) ∧
    (∀ (hm : String) (persist : Bool) (pre post : UserInfo),
      info db name = Except.ok pre → hm ≠ pre.home →
      info (r.runDb (chhomeCmd hm persist name) db) name = Except.ok post →
      chhome r db name hm persist = Except.ok
        ((if post.home != pre.home then post.home == hm else false),
          r.runDb (chhomeCmd hm persist name) db, [chhomeCmd hm persist name])) ∧
    (r.runDb = r2.runDb →
      (∀ uid, chuid r db name uid = chuid r2 db name uid) ∧
      (∀ gid, chgid r db name gid = chgid r2 db name gid) ∧
      (∀ sh, chshell r db name sh = chshell r2 db name sh) ∧
      (∀ hm persist, chhome r db name hm persist = chhome r2 db name hm persist)) := by
  intro r r2 db name
  refine ⟨?_, ?_, ?_, ?_, ?_⟩
  · intro uid pre post h1 hne h2
    have hb : (uid == pre.uid) = false := by simpa using hne
    simp only [chuid, h1, hb, Bool.false_eq_true, if_false, h2]
    cases hpp : post.uid != pre.uid <;> simp [hpp]
  · intro gid pre post h1 hne h2
    have hb : (gid == pre.gid) = false := by simpa using hne
    simp only [chgid, h1, hb, Bool.false_eq_true, if_false, h2]
    cases hpp : post.gid != pre.gid <;> simp [hpp]
  · intro sh pre post h1 hne h2
    have hb : (sh == pre.shell) = false := by simpa using hne
    simp only [chshell, h1, hb, Bool.false_eq_true, if_false, h2]
    cases hpp : post.shell != pre.shell <;> simp [hpp]
  · intro hm persist pre post h1 hne h2
    have hb : (hm == pre.home) = false := by simpa using hne
    simp only [chhome, h1, hb, Bool.false_eq_true, if_false, h2]
    cases hpp : post.home != pre.home <;> simp [hpp]
  · intro hrun
    refine ⟨fun uid => ?_, fun gid => ?_, fun sh => ?_, fun hm persist => ?_⟩
    · simp [chuid, hrun]
    · simp [chgid, hrun]
    · simp [chshell, hrun]
    · simp [chhome, hrun]

/-- Witness for the verify semantics: a runner that changes alice's uid from
1 to 2 makes `chuid(alice, 2)` return true, and the result is unchanged when
the runner is replaced by one with the same database action. -/
theorem chattr_verify_semantics_witness :
    chuid ⟨fun _ _ => ⟨[⟨"alice", "x", 2, 1, "/home/alice", "/bin/sh"⟩], []⟩, fun _ _ => 7⟩
        ⟨[⟨"alice", "x", 1, 1, "/home/alice", "/bin/sh"⟩], []⟩ "alice" 2 =
      Except.ok (true, ⟨[⟨"alice", "x", 2, 1, "/home/alice", "/bin/sh"⟩], []⟩,
        ["pw usermod -u 2 alice"]) ∧
    chuid ⟨fun _ _ => ⟨[⟨"alice", "x", 2, 1, "/home/alice", "/bin/sh"⟩], []⟩, fun _ _ => 7⟩
        ⟨[⟨"alice", "x", 1, 1, "/home/alice", "/bin/sh"⟩], []⟩ "alice" 2 =
      chuid ⟨fun _ _ => ⟨[⟨"alice", "x", 2, 1, "/home/alice", "/bin/sh"⟩], []⟩, fun _ _ => 7⟩
        ⟨[⟨"alice", "x", 1, 1, "/home/alice", "/bin/sh"⟩], []⟩ "alice" 2 := by
  have h := chattr_verify_semantics
    ⟨fun _ _ => ⟨[⟨"alice", "x", 2, 1, "/home/alice", "/bin/sh"⟩], []⟩, fun _ _ => 7⟩
    ⟨fun _ _ => ⟨[⟨"alice", "x", 2, 1, "/home/alice", "/bin/sh"⟩], []⟩, fun _ _ => 7⟩
    ⟨[⟨"alice", "x", 1, 1, "/home/alice", "/bin/sh"⟩], []⟩ "alice"
  have h1 := h.1 2 ⟨"alice", "x", 1, 1, "/home/alice", "/bin/sh", []⟩
    ⟨"alice", "x", 2, 1, "/home/alice", "/bin/sh", []⟩ rfl (by decide) rfl
  exact ⟨h1.trans (by rfl), (h.2.2.2.2 rfl).1 2⟩

end PwUser

namespace PwUser

/-- C2 amended: when the current group set differs from the requested one,
`chgroups` runs the replacement command and then returns true if and only if
every ORIGINALLY assigned group is still assigned after execution (the code
computes `len(ugrps - agrps) == 0` over the pre and post snapshots); the
requested set plays no role in the verification. -/
theorem chgroups_old_groups_kept : ∀ (r : Runner) (db : SysDb) (name : String)
    (gs : StrOrList) (append : Bool),
    setEqB (list_groups db name) (StrOrList.norm gs) = false →
    ((chgroups r db name gs append).1 = true ↔
      ∀ g ∈ list_groups db name,
        g ∈ list_groups (r.runDb (chgroupsCmd (StrOrList.norm gs) name append) db) name) := by
  intro r db name gs append hne
  simp only [chgroups, hne, Bool.false_eq_true, if_false, subsetB]
  simp [List.all_eq_true]

/-- Witness for the amended `chgroups` verification on a concrete database:
current groups `{"a"}`, requested `["b"]`, identity runner. -/
theorem chgroups_old_groups_kept_witness :
    setEqB (list_groups ⟨[], [⟨"a", ["alice"]⟩]⟩ "alice")
        (StrOrList.norm (StrOrList.list ["b"])) = false ∧
    ((chgroups ⟨fun _ db => db, fun _ _ => 0⟩ ⟨[], [⟨"a", ["alice"]⟩]⟩ "alice"
        (StrOrList.list ["b"]) false).1 = true ↔
      ∀ g ∈ list_groups ⟨[], [⟨"a", ["alice"]⟩]⟩ "alice",
        g ∈ list_groups ((⟨fun _ db => db, fun _ _ => 0⟩ : Runner).runDb
          (chgroupsCmd (StrOrList.norm (StrOrList.list ["b"])) "alice" false)
          ⟨[], [⟨"a", ["alice"]⟩]⟩) "alice") :=
  ⟨by decide, chgroups_old_groups_kept ⟨fun _ db => db, fun _ _ => 0⟩
    ⟨[], [⟨"a", ["alice"]⟩]⟩ "alice" (StrOrList.list ["b"]) false (by decide)⟩

/-- C9: a lookup of an absent user is the only exceptional failure mode:
`info` fails exactly when the name is absent from the password database; the
failure propagates through `chuid`, `chgid`, `chshell`, `chhome` and through
the enumeration loop of `getent`; and whenever the relevant lookups succeed
the attribute change operations return an ordinary boolean, never an
error. -/
theorem lookup_error_unique_failure : ∀ (r : Runner) (db : SysDb) (name : String)
    (uid gid : Int) (sh hm : String) (persist : Bool),
    (isOkE (info db name) = false ↔
      db.passwd.find? (fun e => e.pw_name == name) = none) ∧
    (db.passwd.find? (fun e => e.pw_name == name) = none →
      isOkE (chuid r db name uid) = false ∧ isOkE (chgid r db name gid) = false ∧
      isOkE (chshell r db name sh) = false ∧ isOkE (chhome r db name hm persist) = false) ∧
    (getent db = getentGo db db.passwd ∧
      ∀ (l : List Passwd) (e : Passwd), e ∈ l → isOkE (info db e.pw_name) = false →
        isOkE (getentGo db l) = false) ∧
    (∀ pre : UserInfo, info db name = Except.ok pre →
      (∀ c : String, isOkE (info (r.runDb c db) name) = true) →
      isOkE (chuid r db name uid) = true ∧ isOkE (chgid r db name gid) = true ∧
      isOkE (chshell r db name sh) = true ∧ isOkE (chhome r db name hm persist) = true) := by
  intro r db name uid gid sh hm persist
  refine ⟨?_, ?_, ⟨rfl, ?_⟩, ?_⟩
  · cases hf : db.passwd.find? (fun e => e.pw_name == name) with
    | none => simp [info, getpwnam, hf, isOkE]
    | some e => simp [info, getpwnam, hf, isOkE]
  · intro hf
    refine ⟨?_, ?_, ?_, ?_⟩
    · simp [chuid, info, getpwnam, hf, isOkE]
    · simp [chgid, info, getpwnam, hf, isOkE]
    · simp [chshell, info, getpwnam, hf, isOkE]
    · simp [chhome, info, getpwnam, hf, isOkE]
  · intro l
    induction l with
    | nil => intro e he; exact absurd he (List.not_mem_nil e)
    | cons a rest ih =>
      intro e he herr
      rcases List.mem_cons.1 he with rfl | hrest
      · cases hinf : info db e.pw_name with
        | error m => simp [getentGo, hinf, isOkE]
        | ok i => rw [hinf] at herr; simp [isOkE] at herr
      · cases hinf : info db a.pw_name with
        | error m => simp [getentGo, hinf, isOkE]
        | ok i =>
          have hrec := ih e hrest herr
          cases hgo : getentGo db rest with
          | error m => simp [getentGo, hinf, hgo, isOkE]
          | ok lres => rw [hgo] at hrec; simp [isOkE] at hrec
  · intro pre hpre hpost
    refine ⟨?_, ?_, ?_, ?_⟩
    · cases hc : (uid == pre.uid) with
      | true => simp [chuid, hpre, hc, isOkE]
      | false =>
        have := hpost (chuidCmd uid name)
        cases hinf : info (r.runDb (chuidCmd uid name) db) name with
        | error m => rw [hinf] at this; simp [isOkE] at this
        | ok post =>
          simp only [chuid, hpre, hc, Bool.false_eq_true, if_false, hinf]
          cases hpp : post.uid != pre.uid <;> simp [hpp, isOkE]
    · cases hc : (gid == pre.gid) with
      | true => simp [chgid, hpre, hc, isOkE]
      | false =>
        have := hpost (chgidCmd gid name)
        cases hinf : info (r.runDb (chgidCmd gid name) db) name with
        | error m => rw [hinf] at this; simp [isOkE] at this
        | ok post =>
          simp only [chgid, hpre, hc, Bool.false_eq_true, if_false, hinf]
          cases hpp : post.gid != pre.gid <;> simp [hpp, isOkE]
    · cases hc : (sh == pre.shell) with
      | true => simp [chshell, hpre, hc, isOkE]
      | false =>
        have := hpost (chshellCmd sh name)
        cases hinf : info (r.runDb (chshellCmd sh name) db) name with
        | error m => rw [hinf] at this; simp [isOkE] at this
        | ok post =>
          simp only [chshell, hpre, hc, Bool.false_eq_true, if_false, hinf]
          cases hpp : post.shell != pre.shell <;> simp [hpp, isOkE]
    · cases hc : (hm == pre.home) with
      | true => simp [chhome, hpre, hc, isOkE]
      | false =>
        have := hpost (chhomeCmd hm persist name)
        cases hinf : info (r.runDb (chhomeCmd hm persist name) db) name with
        | error m => rw [hinf] at this; simp [isOkE] at this
        | ok post =>
          simp only [chhome, hpre, hc, Bool.false_eq_true, if_false, hinf]
          cases hpp : post.home != pre.home <;> simp [hpp, isOkE]

/-- Witness: on a database containing only alice, `chuid` on the absent name
"ghost" surfaces the lookup error, `chuid` on "alice" with an identity runner
returns an ordinary boolean, and the `getent` loop propagates a lookup
failure for a worklist entry that is not in the database. -/
theorem lookup_error_unique_failure_witness :
    isOkE (chuid ⟨fun _ db => db, fun _ _ => 0⟩
      ⟨[⟨"alice", "x", 1, 1, "/home/alice", "/bin/sh"⟩], []⟩ "ghost" 5) = false ∧
    isOkE (chuid ⟨fun _ db => db, fun _ _ => 0⟩
      ⟨[⟨"alice", "x", 1, 1, "/home/alice", "/bin/sh"⟩], []⟩ "alice" 5) = true ∧
    isOkE (getentGo ⟨[⟨"alice", "x", 1, 1, "/home/alice", "/bin/sh"⟩], []⟩
      [⟨"ghost", "x", 9, 9, "/g", "/bin/sh"⟩]) = false := by
  have hg := lookup_error_unique_failure ⟨fun _ db => db, fun _ _ => 0⟩
    ⟨[⟨"alice", "x", 1, 1, "/home/alice", "/bin/sh"⟩], []⟩ "ghost" 5 5 "s" "h" false
  have ha := lookup_error_unique_failure ⟨fun _ db => db, fun _ _ => 0⟩
    ⟨[⟨"alice", "x", 1, 1, "/home/alice", "/bin/sh"⟩], []⟩ "alice" 5 5 "s" "h" false
  refine ⟨(hg.2.1 rfl).1, ?_, ?_⟩
  · exact (ha.2.2.2 ⟨"alice", "x", 1, 1, "/home/alice", "/bin/sh", []⟩ rfl (fun c => rfl)).1
  · exact ha.2.2.1.2 [⟨"ghost", "x", 9, 9, "/g", "/bin/sh"⟩]
      ⟨"ghost", "x", 9, 9, "/g", "/bin/sh"⟩ (List.mem_singleton.2 rfl) rfl

end PwUser

namespace PwUser

theorem listLtB_trichotomy : ∀ as bs : List Char,
    listLtB as bs = true ∨ listLtB bs as = true ∨ as = bs := by
  intro as
  induction as with
  | nil =>
    intro bs
    cases bs with
    | nil => exact Or.inr (Or.inr rfl)
    | cons b bs => exact Or.inl rfl
  | cons a as ih =>
    intro bs
    cases bs with
    | nil => exact Or.inr (Or.inl rfl)
    | cons b bs =>
      rcases lt_trichotomy a b with h | h | h
      · left; simp [listLtB, h]
      · subst h
        rcases ih bs with h2 | h2 | h2
        · left; simp [listLtB, lt_irrefl, h2]
        · right; left; simp [listLtB, lt_irrefl, h2]
        · right; right; rw [h2]
      · right; left; simp [listLtB, h]

theorem listLtB_trans : ∀ as bs cs : List Char,
    listLtB as bs = true → listLtB bs cs = true → listLtB as cs = true := by
  intro as
  induction as with
  | nil =>
    intro bs cs h1 h2
    cases bs with
    | nil => simp [listLtB] at h1
    | cons b bs =>
      cases cs with
      | nil => simp [listLtB] at h2
      | cons c cs => rfl
  | cons a as ih =>
    intro bs cs h1 h2
    cases bs with
    | nil => simp [listLtB] at h1
    | cons b bs =>
      cases cs with
      | nil => simp [listLtB] at h2
      | cons c cs =>
        by_cases hab : a < b
        · by_cases hbc : b < c
          · simp [listLtB, lt_trans hab hbc]
          · by_cases hcb : c < b
            · simp [listLtB, hbc, hcb] at h2
            · have hbeq : b = c := le_antisymm (not_lt.1 hcb) (not_lt.1 hbc)
              subst hbeq
              simp [listLtB, hab]
        · by_cases hba : b < a
          · simp [listLtB, hab, hba] at h1
          · have haeq : a = b := le_antisymm (not_lt.1 hba) (not_lt.1 hab)
            subst haeq
            simp only [listLtB, lt_irrefl, if_false] at h1
            by_cases hac : a < c
            · simp [listLtB, hac]
            · by_cases hca : c < a
              · simp [listLtB, hac, hca] at h2
              · have haeq2 : a = c := le_antisymm (not_lt.1 hca) (not_lt.1 hac)
                subst haeq2
                simp only [listLtB, lt_irrefl, if_false] at h2 ⊢
                exact ih bs cs h1 h2

theorem strLeB_total : ∀ a b : String, strLeB a b = true ∨ strLeB b a = true := by
  intro a b
  rcases listLtB_trichotomy a.data b.data with h | h | h
  · left; simp [strLeB, strLtB, h]
  · right; simp [strLeB, strLtB, h]
  · left
    have hab : a = b := by
      cases a
      cases b
      exact congrArg String.mk h
    subst hab
    simp [strLeB]

theorem strLeB_trans : ∀ a b c : String,
    strLeB a b = true → strLeB b c = true → strLeB a c = true := by
  intro a b c h1 h2
  simp only [strLeB, strLtB, Bool.or_eq_true, beq_iff_eq] at h1 h2 ⊢
  rcases h1 with h1 | h1
  · rcases h2 with h2 | h2
    · exact Or.inl (listLtB_trans _ _ _ h1 h2)
    · subst h2; exact Or.inl h1
  · subst h1; exact h2

instance : IsTotal String (fun a b => strLeB a b = true) :=
  ⟨strLeB_total⟩

instance : IsTrans String (fun a b => strLeB a b = true) :=
  ⟨strLeB_trans⟩

/-- C8: `list_groups` returns a strictly ascending (hence duplicate free)
sequence, in the Python string order, containing exactly the names of the
groups whose member list mentions the user; membership in a group is
determined solely by the member lists, so the primary gid plays no role and
duplicate memberships collapse. -/
theorem list_groups_sorted_unique_members : ∀ (db : SysDb) (name : String),
    (list_groups db name).Pairwise (fun a b => strLtB a b = true) ∧
    ∀ g : String, g ∈ list_groups db name ↔
      ∃ e : GroupEntry, e ∈ db.groups ∧ e.gr_name = g ∧ name ∈ e.gr_mem := by
  intro db name
  constructor
  · unfold list_groups
    have hs := List.sorted_insertionSort (fun a b => strLeB a b = true)
      (((db.groups.filter fun g => g.gr_mem.contains name).map GroupEntry.gr_name).dedup)
    have hperm := List.perm_insertionSort (fun a b => strLeB a b = true)
      (((db.groups.filter fun g => g.gr_mem.contains name).map GroupEntry.gr_name).dedup)
    have hnd := hperm.symm.nodup (List.nodup_dedup
      ((db.groups.filter fun g => g.gr_mem.contains name).map GroupEntry.gr_name))
    refine (hs.and hnd).imp ?_
    rintro a b ⟨hle, hne⟩
    simp only [strLeB, Bool.or_eq_true, beq_iff_eq] at hle
    rcases hle with h | h
    · exact h
    · exact absurd h hne
  · intro g
    simp only [list_groups, List.mem_insertionSort, List.mem_dedup, List.mem_map,
      List.mem_filter]
    constructor
    · rintro ⟨e, ⟨he, hm⟩, rfl⟩
      exact ⟨e, he, rfl, by simpa using hm⟩
    · rintro ⟨e, he, rfl, hm⟩
      exact ⟨e, ⟨he, by simpa using hm⟩, rfl⟩

end PwUser
